import Mathlib

/-!
Shallow embedding of the vue-easystore store factory (src/index.js and the
unnamed variant src/unnamed/part_000).

JavaScript objects are modelled as association lists `List (String × _)` in
insertion order, matching `Object.entries` enumeration order; real JS objects
never carry a duplicate key, so list order plus first-occurrence lookup models
property access faithfully.  A definition object maps each own key to a
property descriptor: either a data property holding a value, or an accessor
property holding an (opaque, unevaluated) getter identified by a numeral.
The host framework's reactivity (change tracking, computed caching, watch and
created wiring) is outside the embedded logic; the embedding keeps the exact
field classification, override, duplicate-check, registry and snapshot
computations of the two source files.
-/

/-- A JavaScript runtime value, as far as the store logic inspects one:
the store only ever asks "is it a function?" (lodash `isFunction`),
"is it truthy?", and reads string-keyed fields of plain objects. -/
inductive JSVal : Type where
  | undef : JSVal
  | nullv : JSVal
  | boolv : Bool → JSVal
  | num : Int → JSVal
  | str : String → JSVal
  | fn : Nat → JSVal
  | obj : List (String × JSVal) → JSVal

/-- JavaScript truthiness of a value (`if (x)`).  `NaN` is not modelled since
numbers are embedded as integers. -/
def JSVal.truthy : JSVal → Bool
  | .undef => false
  | .nullv => false
  | .boolv b => b
  | .num n => n != 0
  | .str s => s != ""
  | .fn _ => true
  | .obj _ => true

/-- lodash `isFunction`. -/
def JSVal.isFunction : JSVal → Bool
  | .fn _ => true
  | _ => false

/-- An own-property descriptor of a definition object: either a stored data
value, or an accessor ("getter") kept unevaluated and identified by a numeral
(`Object.getOwnPropertyDescriptor(obj, key).get`). -/
inductive DProp : Type where
  | dataProp : JSVal → DProp
  | getter : Nat → DProp

/-- First-occurrence lookup in an association list: JS property read on an
object (whose keys are unique). -/
def lookupKey {α : Type} : List (String × α) → String → Option α
  | [], _ => none
  | kv :: rest, k => if kv.1 = k then some kv.2 else lookupKey rest k

/-- `orDefault o d` is `o` unless `o` is `none`, in which case `d`. -/
def orDefault {α : Type} : Option α → Option α → Option α
  | some v, _ => some v
  | none, d => d

/-- Last-occurrence lookup in an association list; used to reason about
objects rebuilt by repeated assignment, where a later entry for the same
key overwrites an earlier one. -/
def lookupLast {α : Type} : List (String × α) → String → Option α
  | [], _ => none
  | kv :: rest, k => orDefault (lookupLast rest k) (if kv.1 = k then some kv.2 else none)

/-- `key in obj` / truthiness of membership used by the model. -/
def hasKey {α : Type} : List (String × α) → String → Bool
  | [], _ => false
  | kv :: rest, k => decide (kv.1 = k) || hasKey rest k

/-- JS property assignment `obj[k] = v`: replaces the value in place if the
key exists (keeping its position), otherwise appends the key at the end. -/
def setKey {α : Type} : List (String × α) → String → α → List (String × α)
  | [], k, v => [(k, v)]
  | kv :: rest, k, v => if kv.1 = k then (k, v) :: rest else kv :: setKey rest k v

/-- `Object.assign(target, src)`: assign every entry of `src` onto `target`
in order. -/
def assign {α : Type} (t : List (String × α)) (src : List (String × α)) : List (String × α) :=
  src.foldl (fun a kv => setKey a kv.1 kv.2) t

/-- `fromPairs` (lodash in part_000; the hand-rolled spread-based reduce in
index.js): build an object by assigning each pair in order onto `{}`.  Both
source versions give later duplicate entries the value and earlier ones the
position, which is what repeated `setKey` does. -/
def fromPairs {α : Type} (l : List (String × α)) : List (String × α) :=
  assign [] l

/-- JS property read returning `undefined` when the key is absent. -/
def jsGet (m : List (String × JSVal)) (k : String) : JSVal :=
  match lookupKey m k with
  | some v => v
  | none => JSVal.undef

/-- The fields seen when a value is used as the per-module state override
object (`state[name]` passed to `separate`, whose default parameter `{}`
replaces `undefined`); property reads on non-object primitives yield
`undefined`, i.e. behave as the empty object for the keys the code reads. -/
def asStateObj : JSVal → List (String × JSVal)
  | .obj fields => fields
  | _ => []

/-- The `filterFunctions` helper of the `state` computed property:
keep the entries whose value is not a function, rebuilt with `fromPairs`. -/
def filterFunctions (m : List (String × JSVal)) : List (String × JSVal) :=
  fromPairs (m.filter (fun kv => ! kv.2.isFunction))

/-- Core loop of `separate` as it appears in src/unnamed/part_000 (no special
case at all): for each own key in order, an accessor goes to the computed
mapping as its getter, and a data key goes to the data mapping, taking the
override value `state[key]` when that value is truthy and the definition's
own value otherwise. -/
def sepCore (st : List (String × JSVal)) :
    List (String × DProp) → List (String × Nat) × List (String × JSVal)
  | [] => ([], [])
  | (k, DProp.getter g) :: rest =>
      ((k, g) :: (sepCore st rest).1, (sepCore st rest).2)
  | (k, DProp.dataProp v) :: rest =>
      ((sepCore st rest).1,
        (k, if (jsGet st k).truthy then jsGet st k else v) :: (sepCore st rest).2)

/-- Core loop of `separate` as it appears in src/index.js: identical to
`sepCore` except that the loop body starts with
`if (key === 'watch') return;`. -/
def sepCoreIdx (st : List (String × JSVal)) :
    List (String × DProp) → List (String × Nat) × List (String × JSVal)
  | [] => ([], [])
  | (k, p) :: rest =>
      if k = "watch" then sepCoreIdx st rest
      else
        match p with
        | DProp.getter g => ((k, g) :: (sepCoreIdx st rest).1, (sepCoreIdx st rest).2)
        | DProp.dataProp v =>
            ((sepCoreIdx st rest).1,
              (k, if (jsGet st k).truthy then jsGet st k else v) :: (sepCoreIdx st rest).2)

/-- JS property read on a definition object (`obj.watch`): a data property
yields its stored value, an accessor is evaluated.  `g` assigns to every
opaque getter the value the host would currently compute for it. -/
def jsPropRead (g : Nat → JSVal) (obj : List (String × DProp)) (k : String) : JSVal :=
  match lookupKey obj k with
  | some (DProp.dataProp v) => v
  | some (DProp.getter gid) => g gid
  | none => JSVal.undef

/-- `separate` of src/index.js: returns the computed mapping, the data
mapping, and the extracted `watch` value (`const watch = obj.watch`). -/
def separateIdx (g : Nat → JSVal) (obj : List (String × DProp))
    (st : List (String × JSVal)) :
    List (String × Nat) × List (String × JSVal) × JSVal :=
  ((sepCoreIdx st obj).1, (sepCoreIdx st obj).2, jsPropRead g obj "watch")

/-- `separate` of src/unnamed/part_000: returns only the computed mapping and
the data mapping; there is no `watch` handling in this variant. -/
def separate000 (obj : List (String × DProp)) (st : List (String × JSVal)) :
    List (String × Nat) × List (String × JSVal) :=
  sepCore st obj

/-- A constructed module container.  `isVue` records which construction path
built it: `true` for a full reactive instance (`new Vue({data, computed, ...})`),
`false` for the plain observable path (`Vue.observable(data)`).  Reactivity
wiring itself (watch handlers, the `created` hook) lives in the host
framework and is not part of the embedded state. -/
structure Container : Type where
  isVue : Bool
  data : List (String × JSVal)
  computed : List (String × Nat)

/-- The root store as the embedded logic observes it: current root data
fields, the root's user-supplied computed getters, the captured constructor
`state` argument (closed over by `add` for per-module overrides), and the
module registry `storeFactory.modules` in registration order. -/
structure RootStore : Type where
  rootData : List (String × JSVal)
  rootComputed : List (String × Nat)
  stateArg : List (String × JSVal)
  modules : List (String × Container)

/-- A module factory: called with the root container, returns the module's
definition object.  (The part_000 variant also passes a `context` argument,
which the embedded logic never inspects.) -/
def Factory : Type := RootStore → List (String × DProp)

/-- The current value of `filterFunctions(module.$data || module)` for a
registered container: a Vue instance contributes its `$data`, a plain
observable contributes itself — in both cases the container's data fields. -/
def contState (c : Container) : JSVal :=
  JSVal.obj (filterFunctions c.data)

/-- The synthesized `state` computed property: the function-filtered root
data, then `Object.assign` of one entry per registered module mapping the
module name to its function-filtered field object. -/
def stateAggregate (r : RootStore) : List (String × JSVal) :=
  assign (filterFunctions r.rootData)
    (fromPairs (r.modules.map (fun nc => (nc.1, contState nc.2))))

/-- Truthiness of `this[name]` on the root Vue instance, used by the
duplicate check in `add`.  The instance exposes the synthesized `state`
computed (an object, hence truthy), the `add` method (a function, hence
truthy), every registered module (an instance or observable object, hence
truthy), every proxied root data field at its current value, and every
user computed getter at its evaluation `g`.  Vue-internal `$`/`_` properties
are outside the names the store logic is used with and are not modelled. -/
def thisTruthy (g : Nat → JSVal) (r : RootStore) (name : String) : Bool :=
  if name = "state" then true
  else if name = "add" then true
  else if hasKey r.modules name then true
  else
    match lookupKey r.rootData name with
    | some v => v.truthy
    | none =>
      match lookupKey r.rootComputed name with
      | some gid => (g gid).truthy
      | none => false

/-- The exact warning text of `console.warn` on a duplicate name. -/
def dupMsg (name : String) : String :=
  "Module with name " ++ name ++ " already added!"

/-- Single-name `add` of src/index.js.  Returns the updated store and the
list of warnings printed.  On the non-duplicate path the module definition is
partitioned with the override object found under the module's name in the
captured constructor state, the container is built as a full instance when
the computed mapping is non-empty (`Object.keys(computed).length`) and as a
plain observable otherwise, and the container is registered.  The assignment
`this[name] = ...` writes through the data proxy when `name` is an existing
(necessarily falsy) root data field; the stored container is represented
there by an opaque non-function, truthy object value, which is all the
embedded logic ever observes of it. -/
def add1Idx (g : Nat → JSVal) (r : RootStore) (name : String) (f : Factory) :
    RootStore × List String :=
  if thisTruthy g r name then
    (r, [dupMsg name])
  else
    let sep := separateIdx g (f r) (asStateObj (jsGet r.stateArg name))
    let cont : Container :=
      if sep.1.isEmpty then
        { isVue := false, data := sep.2.1, computed := sep.1 }
      else
        { isVue := true, data := sep.2.1, computed := sep.1 }
    ({ r with
        rootData :=
          if hasKey r.rootData name then setKey r.rootData name (JSVal.obj []) else r.rootData
        modules := r.modules ++ [(name, cont)] },
      [])

/-- Single-name `add` of src/unnamed/part_000: as `add1Idx`, except that the
full-instance path is also taken when `data && data.created` is truthy (the
data object itself is always truthy, so the condition is the truthiness of
the `created` data field), wiring it as a lifecycle hook. -/
def add1P0 (g : Nat → JSVal) (r : RootStore) (name : String) (f : Factory) :
    RootStore × List String :=
  if thisTruthy g r name then
    (r, [dupMsg name])
  else
    let sep := separate000 (f r) (asStateObj (jsGet r.stateArg name))
    let cont : Container :=
      if !sep.1.isEmpty || (jsGet sep.2 "created").truthy then
        { isVue := true, data := sep.2, computed := sep.1 }
      else
        { isVue := false, data := sep.2, computed := sep.1 }
    ({ r with
        rootData :=
          if hasKey r.rootData name then setKey r.rootData name (JSVal.obj []) else r.rootData
        modules := r.modules ++ [(name, cont)] },
      [])

/-- The bulk loop of `add`:
`Object.entries(modules).forEach(([name, module]) => this.add(name, module))`,
where each recursive call takes the single-name path since entry keys are
strings.  Generic in the single-name step so both variants share it. -/
def addEntries (step : String → Factory → RootStore → RootStore × List String) :
    RootStore → List (String × Factory) → RootStore × List String
  | r, [] => (r, [])
  | r, (n, f) :: rest =>
      let p := step n f r
      let q := addEntries step p.1 rest
      (q.1, p.2 ++ q.2)

/-- The argument of a call to `add`: either a single name with a factory, or
a plain object mapping names to factories (`typeof name === 'object'`). -/
inductive AddArg : Type where
  | single : String → Factory → AddArg
  | bulk : List (String × Factory) → AddArg

/-- The single-name form of index.js `add` as a step function for the bulk
loop (the recursive `this.add(name, module)` call on a string name). -/
def addStepIdx (g : Nat → JSVal) : String → Factory → RootStore → RootStore × List String :=
  fun n f rr => add1Idx g rr n f

/-- The single-name form of part_000 `add` as a step function for the bulk
loop. -/
def addStepP0 (g : Nat → JSVal) : String → Factory → RootStore → RootStore × List String :=
  fun n f rr => add1P0 g rr n f

/-- The `add` method of src/index.js with its bulk-object dispatch. -/
def addCallIdx (g : Nat → JSVal) (r : RootStore) : AddArg → RootStore × List String
  | AddArg.single n f => add1Idx g r n f
  | AddArg.bulk es => addEntries (addStepIdx g) r es

/-- The `add` method of src/unnamed/part_000 with its bulk-object dispatch. -/
def addCallP0 (g : Nat → JSVal) (r : RootStore) : AddArg → RootStore × List String
  | AddArg.single n f => add1P0 g r n f
  | AddArg.bulk es => addEntries (addStepP0 g) r es

/-- The `StoreFactory` constructor of src/index.js: partition the base
definition against the whole state argument, expose the data and computed
mappings, capture the state argument and start with an empty registry.
The returned `watch` mapping is handed to the framework and the synthesized
`state` computed is modelled by `stateAggregate`. -/
def mkRootIdx (g : Nat → JSVal) (base : List (String × DProp))
    (st : List (String × JSVal)) : RootStore :=
  { rootData := (separateIdx g base st).2.1
    rootComputed := (separateIdx g base st).1
    stateArg := st
    modules := [] }

/-- The `StoreFactory` constructor of src/unnamed/part_000 (no `watch`
extraction; the extra `context` parameter is never read by the embedded
logic). -/
def mkRootP0 (base : List (String × DProp)) (st : List (String × JSVal)) : RootStore :=
  { rootData := (separate000 base st).2
    rootComputed := (separate000 base st).1
    stateArg := st
    modules := [] }

/-! ### Association-list lemmas -/

theorem lookupKey_setKey_self {α : Type} (m : List (String × α)) (k : String) (v : α) :
    lookupKey (setKey m k v) k = some v := by
  induction m with
  | nil => simp [setKey, lookupKey]
  | cons kv rest ih =>
    by_cases h : kv.1 = k
    · simp [setKey, h, lookupKey]
    · simp [setKey, h, lookupKey, ih]

theorem lookupKey_setKey_ne {α : Type} (m : List (String × α)) (k k2 : String) (v : α)
    (h : k2 ≠ k) : lookupKey (setKey m k v) k2 = lookupKey m k2 := by
  have hne : ¬ k = k2 := Ne.symm h
  induction m with
  | nil => simp [setKey, lookupKey, hne]
  | cons kv rest ih =>
    by_cases hk : kv.1 = k
    · subst hk
      simp [setKey, lookupKey, hne]
    · simp only [setKey, if_neg hk, lookupKey]
      by_cases h2 : kv.1 = k2
      · simp [h2]
      · simp [h2, ih]

theorem orDefault_none_right {α : Type} (o : Option α) : orDefault o none = o := by
  cases o <;> rfl

theorem lookupKey_assign {α : Type} (l : List (String × α)) :
    ∀ (acc : List (String × α)) (k : String),
      lookupKey (assign acc l) k = orDefault (lookupLast l k) (lookupKey acc k) := by
  induction l with
  | nil => intro acc k; simp [assign, lookupLast, orDefault]
  | cons kv rest ih =>
    intro acc k
    have h1 : assign acc (kv :: rest) = assign (setKey acc kv.1 kv.2) rest := rfl
    rw [h1, ih]
    cases hlast : lookupLast rest k with
    | some v => simp [lookupLast, hlast, orDefault]
    | none =>
      by_cases hk : kv.1 = k
      · subst hk
        simp [lookupLast, hlast, orDefault, lookupKey_setKey_self]
      · have hne : k ≠ kv.1 := fun hh => hk hh.symm
        simp [lookupLast, hlast, orDefault, hk, lookupKey_setKey_ne _ _ _ _ hne]

theorem lookupLast_append_self {α : Type} (l : List (String × α)) (k : String) (v : α) :
    lookupLast (l ++ [(k, v)]) k = some v := by
  induction l with
  | nil => simp [lookupLast, orDefault]
  | cons kv rest ih => simp [lookupLast, ih, orDefault]

theorem lookupLast_of_not_mem {α : Type} (l : List (String × α)) (k : String)
    (h : k ∉ l.map Prod.fst) : lookupLast l k = none := by
  induction l with
  | nil => rfl
  | cons kv rest ih =>
    simp only [List.map_cons, List.mem_cons] at h
    push_neg at h
    have hne : ¬ kv.1 = k := fun hh => h.1 hh.symm
    simp [lookupLast, ih h.2, orDefault, hne]

theorem lookupKey_of_not_mem {α : Type} (l : List (String × α)) (k : String)
    (h : k ∉ l.map Prod.fst) : lookupKey l k = none := by
  induction l with
  | nil => rfl
  | cons kv rest ih =>
    simp only [List.map_cons, List.mem_cons] at h
    push_neg at h
    have hne : ¬ kv.1 = k := fun hh => h.1 hh.symm
    simp [lookupKey, ih h.2, hne]

theorem lookupLast_eq_lookupKey {α : Type} (l : List (String × α)) (k : String)
    (h : (l.map Prod.fst).Nodup) : lookupLast l k = lookupKey l k := by
  induction l with
  | nil => rfl
  | cons kv rest ih =>
    simp only [List.map_cons, List.nodup_cons] at h
    by_cases hk : kv.1 = k
    · subst hk
      rw [lookupLast, lookupLast_of_not_mem rest kv.1 h.1]
      simp [lookupKey, orDefault]
    · rw [lookupLast, ih h.2]
      simp [lookupKey, hk, orDefault_none_right]

theorem hasKey_iff_mem {α : Type} (l : List (String × α)) (k : String) :
    hasKey l k = true ↔ k ∈ l.map Prod.fst := by
  induction l with
  | nil => simp [hasKey]
  | cons kv rest ih =>
    simp only [hasKey, Bool.or_eq_true, decide_eq_true_eq, ih, List.map_cons, List.mem_cons]
    constructor
    · rintro (h | h)
      · exact Or.inl h.symm
      · exact Or.inr h
    · rintro (h | h)
      · exact Or.inl h.symm
      · exact Or.inr h

theorem keys_setKey {α : Type} (m : List (String × α)) (k : String) (v : α) :
    (setKey m k v).map Prod.fst =
      if hasKey m k then m.map Prod.fst else m.map Prod.fst ++ [k] := by
  induction m with
  | nil => simp [setKey, hasKey]
  | cons kv rest ih =>
    by_cases hk : kv.1 = k
    · subst hk
      simp [setKey, hasKey]
    · simp only [setKey, if_neg hk, List.map_cons, ih, hasKey, decide_eq_true_eq]
      by_cases hr : hasKey rest k
      · simp [hr, hk]
      · simp [hr, hk]

theorem nodup_keys_setKey {α : Type} (m : List (String × α)) (k : String) (v : α)
    (h : (m.map Prod.fst).Nodup) : ((setKey m k v).map Prod.fst).Nodup := by
  rw [keys_setKey]
  by_cases hk : hasKey m k
  · simpa [hk] using h
  · have hnm : k ∉ m.map Prod.fst := by
      intro hmem
      exact hk ((hasKey_iff_mem m k).mpr hmem)
    rw [if_neg hk]
    refine List.Nodup.append h (List.nodup_singleton k) ?_
    intro a ha hb
    rw [List.mem_singleton] at hb
    subst hb
    exact hnm ha

theorem nodup_keys_assign {α : Type} (l : List (String × α)) :
    ∀ acc : List (String × α), ((acc.map Prod.fst).Nodup) →
      (((assign acc l).map Prod.fst).Nodup) := by
  induction l with
  | nil => intro acc h; simpa [assign] using h
  | cons kv rest ih =>
    intro acc h
    have h1 : assign acc (kv :: rest) = assign (setKey acc kv.1 kv.2) rest := rfl
    rw [h1]
    exact ih _ (nodup_keys_setKey acc kv.1 kv.2 h)

theorem nodup_keys_fromPairs {α : Type} (l : List (String × α)) :
    ((fromPairs l).map Prod.fst).Nodup :=
  nodup_keys_assign l [] (by simp)

theorem lookupKey_fromPairs {α : Type} (l : List (String × α)) (k : String) :
    lookupKey (fromPairs l) k = lookupLast l k := by
  rw [fromPairs, lookupKey_assign]
  simp [lookupKey, orDefault_none_right]

theorem lookupLast_fromPairs {α : Type} (l : List (String × α)) (k : String) :
    lookupLast (fromPairs l) k = lookupLast l k := by
  rw [lookupLast_eq_lookupKey _ _ (nodup_keys_fromPairs l), lookupKey_fromPairs]

theorem lookupKey_assign_fromPairs {α : Type} (t l : List (String × α)) (k : String) :
    lookupKey (assign t (fromPairs l)) k = orDefault (lookupLast l k) (lookupKey t k) := by
  rw [lookupKey_assign, lookupLast_fromPairs]

theorem lookupLast_map_pair {α β : Type} (h : α → β) (l : List (String × α)) (k : String) :
    lookupLast (l.map (fun kv => (kv.1, h kv.2))) k = Option.map h (lookupLast l k) := by
  induction l with
  | nil => rfl
  | cons kv rest ih =>
    simp only [List.map_cons, lookupLast, ih]
    cases lookupLast rest k with
    | some v => simp [orDefault]
    | none =>
      by_cases hk : kv.1 = k <;> simp [hk, orDefault]

/-- Reading the `state` aggregate at a key: the last registered module of
that name wins, else the root's function-filtered data field. -/
theorem stateAggregate_lookup (r : RootStore) (k : String) :
    lookupKey (stateAggregate r) k =
      orDefault (Option.map contState (lookupLast r.modules k))
        (lookupKey (filterFunctions r.rootData) k) := by
  rw [stateAggregate, lookupKey_assign_fromPairs, lookupLast_map_pair]

/-! ### Partitioner lemmas -/

theorem sepCore_not_mem (st : List (String × JSVal)) (obj : List (String × DProp)) (k : String)
    (h : k ∉ obj.map Prod.fst) :
    lookupKey (sepCore st obj).1 k = none ∧ lookupKey (sepCore st obj).2 k = none := by
  induction obj with
  | nil => exact ⟨rfl, rfl⟩
  | cons kp rest ih =>
    simp only [List.map_cons, List.mem_cons] at h
    push_neg at h
    have hne : ¬ kp.1 = k := fun hh => h.1 hh.symm
    obtain ⟨k0, p0⟩ := kp
    cases p0 with
    | getter gid =>
      simp only [sepCore, lookupKey]
      exact ⟨by simpa [hne] using (ih h.2).1, (ih h.2).2⟩
    | dataProp v =>
      simp only [sepCore, lookupKey]
      exact ⟨(ih h.2).1, by simpa [hne] using (ih h.2).2⟩

theorem sepCore_route (st : List (String × JSVal)) (obj : List (String × DProp))
    (k : String) (p : DProp) (hnd : (obj.map Prod.fst).Nodup) (hmem : (k, p) ∈ obj) :
    (∀ gid, p = DProp.getter gid →
      lookupKey (sepCore st obj).1 k = some gid ∧ lookupKey (sepCore st obj).2 k = none) ∧
    (∀ v, p = DProp.dataProp v →
      lookupKey (sepCore st obj).1 k = none ∧
        lookupKey (sepCore st obj).2 k =
          some (if (jsGet st k).truthy then jsGet st k else v)) := by
  induction obj with
  | nil => cases hmem
  | cons kp rest ih =>
    simp only [List.map_cons, List.nodup_cons] at hnd
    rcases List.mem_cons.mp hmem with hhead | htail
    · obtain ⟨k0, p0⟩ := kp
      injection hhead with hk hp
      subst hk
      subst hp
      have hnone := sepCore_not_mem st rest k hnd.1
      cases p with
      | getter gid =>
        refine ⟨fun gid2 hg => ?_, fun v hv => by cases hv⟩
        obtain rfl : gid = gid2 := by cases hg; rfl
        simp [sepCore, lookupKey, hnone.2]
      | dataProp v =>
        refine ⟨fun gid hg => (by cases hg), fun v2 hv => ?_⟩
        obtain rfl : v = v2 := by cases hv; rfl
        simp [sepCore, lookupKey, hnone.1]
    · have hkmem : k ∈ rest.map Prod.fst := List.mem_map_of_mem Prod.fst htail
      have hne : ¬ kp.1 = k := fun hh => hnd.1 (hh ▸ hkmem)
      have ihr := ih hnd.2 htail
      obtain ⟨k0, p0⟩ := kp
      cases p0 with
      | getter gid =>
        refine ⟨fun gid2 hg => ?_, fun v hv => ?_⟩
        · obtain ⟨h1, h2⟩ := ihr.1 gid2 hg
          exact ⟨by simpa [sepCore, lookupKey, hne] using h1, by simpa [sepCore] using h2⟩
        · obtain ⟨h1, h2⟩ := ihr.2 v hv
          exact ⟨by simpa [sepCore, lookupKey, hne] using h1, by simpa [sepCore] using h2⟩
      | dataProp v0 =>
        refine ⟨fun gid2 hg => ?_, fun v hv => ?_⟩
        · obtain ⟨h1, h2⟩ := ihr.1 gid2 hg
          exact ⟨by simpa [sepCore] using h1, by simpa [sepCore, lookupKey, hne] using h2⟩
        · obtain ⟨h1, h2⟩ := ihr.2 v hv
          exact ⟨by simpa [sepCore] using h1, by simpa [sepCore, lookupKey, hne] using h2⟩

/-- The index.js loop is the part_000 loop run on the definition with the
`watch` key removed. -/
theorem sepCoreIdx_eq_filter (st : List (String × JSVal)) (obj : List (String × DProp)) :
    sepCoreIdx st obj = sepCore st (obj.filter (fun kv => ! decide (kv.1 = "watch"))) := by
  induction obj with
  | nil => rfl
  | cons kp rest ih =>
    obtain ⟨k0, p0⟩ := kp
    by_cases hk : k0 = "watch"
    · subst hk
      simp [sepCoreIdx, List.filter, ih]
    · cases p0 with
      | getter gid => simp [sepCoreIdx, List.filter, hk, ih, sepCore]
      | dataProp v => simp [sepCoreIdx, List.filter, hk, ih, sepCore]

/-! ### Further helper lemmas -/

theorem mem_keys_of_lookupKey {α : Type} (l : List (String × α)) (k : String) (v : α)
    (h : lookupKey l k = some v) : k ∈ l.map Prod.fst := by
  induction l with
  | nil => cases h
  | cons kv rest ih =>
    by_cases hk : kv.1 = k
    · simp [hk]
    · simp only [lookupKey, if_neg hk] at h
      simp [ih h]

theorem mem_of_lookupKey {α : Type} (l : List (String × α)) (k : String) (v : α)
    (h : lookupKey l k = some v) : (k, v) ∈ l := by
  induction l with
  | nil => cases h
  | cons kv rest ih =>
    by_cases hk : kv.1 = k
    · simp only [lookupKey, if_pos hk] at h
      obtain ⟨k1, v1⟩ := kv
      simp only at hk
      subst hk
      have hv1 : v1 = v := Option.some.inj h
      subst hv1
      exact List.mem_cons_self _ _
    · simp only [lookupKey, if_neg hk] at h
      exact List.mem_cons_of_mem _ (ih h)

theorem lookupKey_filter_nonfn (m : List (String × JSVal)) (k : String) (v : JSVal)
    (hnd : (m.map Prod.fst).Nodup) (hv : lookupKey m k = some v)
    (hfn : v.isFunction = false) :
    lookupKey (m.filter (fun kv => ! kv.2.isFunction)) k = some v := by
  induction m with
  | nil => cases hv
  | cons kv rest ih =>
    simp only [List.map_cons, List.nodup_cons] at hnd
    by_cases hk : kv.1 = k
    · simp only [lookupKey, if_pos hk] at hv
      have hkv : kv.2 = v := Option.some.inj hv
      rw [List.filter_cons]
      simp [hkv, hfn, lookupKey, hk]
    · simp only [lookupKey, if_neg hk] at hv
      rw [List.filter_cons]
      by_cases hkeep : (! kv.2.isFunction) = true
      · rw [if_pos hkeep]
        simp [lookupKey, hk, ih hnd.2 hv]
      · rw [if_neg hkeep]
        exact ih hnd.2 hv

theorem lookupKey_filterFunctions (m : List (String × JSVal)) (k : String) (v : JSVal)
    (hnd : (m.map Prod.fst).Nodup) (hv : lookupKey m k = some v)
    (hfn : v.isFunction = false) :
    lookupKey (filterFunctions m) k = some v := by
  rw [filterFunctions, lookupKey_fromPairs]
  have hsub : ((m.filter (fun kv => ! kv.2.isFunction)).map Prod.fst).Nodup :=
    List.Nodup.sublist (List.Sublist.map Prod.fst (List.filter_sublist m)) hnd
  rw [lookupLast_eq_lookupKey _ _ hsub]
  exact lookupKey_filter_nonfn m k v hnd hv hfn

theorem addEntries_foldl (step : String → Factory → RootStore → RootStore × List String)
    (es : List (String × Factory)) :
    ∀ (r : RootStore) (w0 : List String),
      es.foldl (fun p e => ((step e.1 e.2 p.1).1, p.2 ++ (step e.1 e.2 p.1).2)) (r, w0)
        = ((addEntries step r es).1, w0 ++ (addEntries step r es).2) := by
  induction es with
  | nil => intro r w0; simp [addEntries]
  | cons e rest ih =>
    intro r w0
    obtain ⟨n, f⟩ := e
    simp only [List.foldl_cons]
    rw [ih]
    simp [addEntries, List.append_assoc]

theorem addEntries_append (step : String → Factory → RootStore → RootStore × List String)
    (es1 : List (String × Factory)) :
    ∀ (es2 : List (String × Factory)) (r : RootStore),
      addEntries step r (es1 ++ es2)
        = ((addEntries step (addEntries step r es1).1 es2).1,
           (addEntries step r es1).2 ++ (addEntries step (addEntries step r es1).1 es2).2) := by
  induction es1 with
  | nil => intro es2 r; simp [addEntries]
  | cons e rest ih =>
    intro es2 r
    obtain ⟨n, f⟩ := e
    simp only [List.cons_append, addEntries, List.append_eq]
    rw [ih]
    simp [List.append_assoc]

/-! ### Claim theorems -/

/-- C2: constructing a store from definition field `a: 1` with
`stateOverrides = { a: 5 }` yields `a = 5`, and with `stateOverrides = { a: 0 }`
yields `a = 1`; in general an override is applied iff its value is truthy
(so `0`, `false`, `""` behave as absent), and an override never applies to an
accessor field, which is routed untouched to the computed mapping.  Holds in
both source variants. -/
theorem claim_C2_override_truthiness (g : Nat → JSVal) :
    (∀ v : JSVal,
      (mkRootIdx g [("a", DProp.dataProp (JSVal.num 1))] [("a", v)]).rootData
        = [("a", if v.truthy then v else JSVal.num 1)] ∧
      (mkRootP0 [("a", DProp.dataProp (JSVal.num 1))] [("a", v)]).rootData
        = [("a", if v.truthy then v else JSVal.num 1)]) ∧
    (mkRootIdx g [("a", DProp.dataProp (JSVal.num 1))] [("a", JSVal.num 5)]).rootData
      = [("a", JSVal.num 5)] ∧
    (mkRootIdx g [("a", DProp.dataProp (JSVal.num 1))] [("a", JSVal.num 0)]).rootData
      = [("a", JSVal.num 1)] ∧
    (mkRootP0 [("a", DProp.dataProp (JSVal.num 1))] [("a", JSVal.num 5)]).rootData
      = [("a", JSVal.num 5)] ∧
    (mkRootP0 [("a", DProp.dataProp (JSVal.num 1))] [("a", JSVal.num 0)]).rootData
      = [("a", JSVal.num 1)] ∧
    (∀ (gid : Nat) (st : List (String × JSVal)),
      (mkRootIdx g [("a", DProp.getter gid)] st).rootData = [] ∧
      (mkRootIdx g [("a", DProp.getter gid)] st).rootComputed = [("a", gid)] ∧
      (mkRootP0 [("a", DProp.getter gid)] st).rootData = [] ∧
      (mkRootP0 [("a", DProp.getter gid)] st).rootComputed = [("a", gid)]) := by
  refine ⟨fun v => ⟨?_, ?_⟩, by rfl, by rfl, by rfl, by rfl, fun gid st => ⟨?_, ?_, ?_, ?_⟩⟩
  · simp [mkRootIdx, separateIdx, sepCoreIdx, jsGet, lookupKey]
  · simp [mkRootP0, separate000, sepCore, jsGet, lookupKey]
  · simp [mkRootIdx, separateIdx, sepCoreIdx]
  · simp [mkRootIdx, separateIdx, sepCoreIdx]
  · simp [mkRootP0, separate000, sepCore]
  · simp [mkRootP0, separate000, sepCore]

/-- C3 counterexample: the `separate` of src/unnamed/part_000 has no `watch`
special case, so a definition whose `watch` key is a plain data property ends
up in the plain-field (data) mapping of the result. -/
theorem claim_C3_cx :
    (separate000 [("watch", DProp.dataProp (JSVal.num 1))] []).2
      = [("watch", JSVal.num 1)] := rfl

/-- C3 amended: in src/index.js, `separate` extracts the `watch` value
separately (`const watch = obj.watch`) and excludes the key from field
processing, so `watch` appears in neither the computed nor the data mapping;
in src/unnamed/part_000, `separate` has no `watch` handling and routes a
`watch` data property into the plain-field mapping like any other key. -/
theorem claim_C3_watch_extraction (g : Nat → JSVal) (obj : List (String × DProp))
    (st : List (String × JSVal)) (w : JSVal)
    (hnd : (obj.map Prod.fst).Nodup)
    (hw : lookupKey obj "watch" = some (DProp.dataProp w)) :
    lookupKey (separateIdx g obj st).1 "watch" = none ∧
    lookupKey (separateIdx g obj st).2.1 "watch" = none ∧
    (separateIdx g obj st).2.2 = w ∧
    lookupKey (separate000 obj st).2 "watch"
      = some (if (jsGet st "watch").truthy then jsGet st "watch" else w) := by
  have hnw : "watch" ∉ (obj.filter (fun kv => ! decide (kv.1 = "watch"))).map Prod.fst := by
    intro hmem
    obtain ⟨kv, hkv, hfst⟩ := List.mem_map.mp hmem
    have := (List.mem_filter.mp hkv).2
    simp [hfst] at this
  have hnone := sepCore_not_mem st (obj.filter (fun kv => ! decide (kv.1 = "watch"))) "watch" hnw
  have hroute := (sepCore_route st obj "watch" (DProp.dataProp w) hnd
    (mem_of_lookupKey obj "watch" (DProp.dataProp w) hw)).2 w rfl
  refine ⟨?_, ?_, ?_, hroute.2⟩
  · simpa [separateIdx, sepCoreIdx_eq_filter] using hnone.1
  · simpa [separateIdx, sepCoreIdx_eq_filter] using hnone.2
  · simp [separateIdx, jsPropRead, hw]

/-- C3 amended, witness. -/
theorem claim_C3_watch_extraction_w :
    lookupKey (separateIdx (fun gid => JSVal.undef)
        [("watch", DProp.dataProp (JSVal.num 9)), ("a", DProp.dataProp (JSVal.num 1))] []).1
      "watch" = none ∧
    lookupKey (separateIdx (fun gid => JSVal.undef)
        [("watch", DProp.dataProp (JSVal.num 9)), ("a", DProp.dataProp (JSVal.num 1))] []).2.1
      "watch" = none ∧
    (separateIdx (fun gid => JSVal.undef)
        [("watch", DProp.dataProp (JSVal.num 9)), ("a", DProp.dataProp (JSVal.num 1))] []).2.2
      = JSVal.num 9 ∧
    lookupKey (separate000
        [("watch", DProp.dataProp (JSVal.num 9)), ("a", DProp.dataProp (JSVal.num 1))] []).2
      "watch"
      = some (if (jsGet [] "watch").truthy then jsGet [] "watch" else JSVal.num 9) :=
  claim_C3_watch_extraction (fun gid => JSVal.undef)
    [("watch", DProp.dataProp (JSVal.num 9)), ("a", DProp.dataProp (JSVal.num 1))] []
    (JSVal.num 9) (by decide) rfl

/-- C4: calling `add` with a name under which a module is already registered
attaches nothing, prints the duplicate warning, and returns the store (root
container, module registry and every registered container) completely
unchanged, in both source variants. -/
theorem claim_C4_duplicate_add_noop (g : Nat → JSVal) (r : RootStore) (name : String)
    (cont : Container) (f fP : Factory)
    (hmem : lookupKey r.modules name = some cont) :
    add1Idx g r name f = (r, [dupMsg name]) ∧ add1P0 g r name fP = (r, [dupMsg name]) := by
  have hk : hasKey r.modules name = true :=
    (hasKey_iff_mem r.modules name).mpr (mem_keys_of_lookupKey r.modules name cont hmem)
  have htr : thisTruthy g r name = true := by
    by_cases h1 : name = "state"
    · simp [thisTruthy, h1]
    · by_cases h2 : name = "add"
      · simp [thisTruthy, h1, h2]
      · simp [thisTruthy, h1, h2, hk]
  exact ⟨by simp [add1Idx, htr], by simp [add1P0, htr]⟩

/-- C4 witness. -/
theorem claim_C4_duplicate_add_noop_w :
    add1Idx (fun gid => JSVal.undef)
        ⟨[], [], [], [("m", ⟨false, [("y", JSVal.num 2)], []⟩)]⟩ "m"
        (fun rr => []) =
      (⟨[], [], [], [("m", ⟨false, [("y", JSVal.num 2)], []⟩)]⟩, [dupMsg "m"]) ∧
    add1P0 (fun gid => JSVal.undef)
        ⟨[], [], [], [("m", ⟨false, [("y", JSVal.num 2)], []⟩)]⟩ "m"
        (fun rr => []) =
      (⟨[], [], [], [("m", ⟨false, [("y", JSVal.num 2)], []⟩)]⟩, [dupMsg "m"]) :=
  claim_C4_duplicate_add_noop (fun gid => JSVal.undef)
    ⟨[], [], [], [("m", ⟨false, [("y", JSVal.num 2)], []⟩)]⟩ "m"
    ⟨false, [("y", JSVal.num 2)], []⟩ (fun rr => []) (fun rr => []) rfl

/-- C8: on any definition object without an own `watch` key, the `separate`
of src/index.js and the `separate` of src/unnamed/part_000 return equal
computed mappings and equal data mappings for the same definition and
state-override objects. -/
theorem claim_C8_separate_variants_agree (g : Nat → JSVal) (obj : List (String × DProp))
    (st : List (String × JSVal)) (hw : "watch" ∉ obj.map Prod.fst) :
    (separateIdx g obj st).1 = (separate000 obj st).1 ∧
    (separateIdx g obj st).2.1 = (separate000 obj st).2 := by
  have hfilter : obj.filter (fun kv => ! decide (kv.1 = "watch")) = obj := by
    apply List.filter_eq_self.mpr
    intro a ha
    have hne : a.1 ≠ "watch" := fun hh => hw (hh ▸ List.mem_map_of_mem Prod.fst ha)
    simp [hne]
  constructor <;> simp [separateIdx, separate000, sepCoreIdx_eq_filter, hfilter]

/-- C8 witness. -/
theorem claim_C8_separate_variants_agree_w :
    (separateIdx (fun gid => JSVal.undef)
        [("a", DProp.dataProp (JSVal.num 1)), ("b", DProp.getter 0)] [("a", JSVal.num 5)]).1
      = (separate000
        [("a", DProp.dataProp (JSVal.num 1)), ("b", DProp.getter 0)] [("a", JSVal.num 5)]).1 ∧
    (separateIdx (fun gid => JSVal.undef)
        [("a", DProp.dataProp (JSVal.num 1)), ("b", DProp.getter 0)] [("a", JSVal.num 5)]).2.1
      = (separate000
        [("a", DProp.dataProp (JSVal.num 1)), ("b", DProp.getter 0)] [("a", JSVal.num 5)]).2 :=
  claim_C8_separate_variants_agree (fun gid => JSVal.undef)
    [("a", DProp.dataProp (JSVal.num 1)), ("b", DProp.getter 0)] [("a", JSVal.num 5)]
    (by decide)

/-- C9: the duplicate check of `add` is `if (this[name])` — truthiness of the
root container's property under the name, not membership in the module
registry.  Any name that is a truthy property of the root instance — the
built-in `state` computed (always an object) and `add` method (a function),
or a root plain field whose current value is truthy — is refused with the
duplicate warning and registers nothing, even when no module of that name is
registered.  Both variants share this check. -/
theorem claim_C9_truthy_guard (g : Nat → JSVal) (r : RootStore) (name : String)
    (f fP : Factory)
    (hname : name = "state" ∨ name = "add" ∨
      ∃ v, lookupKey r.rootData name = some v ∧ v.truthy = true)
    (hnomod : hasKey r.modules name = false) :
    add1Idx g r name f = (r, [dupMsg name]) ∧ add1P0 g r name fP = (r, [dupMsg name]) := by
  have htr : thisTruthy g r name = true := by
    by_cases h1 : name = "state"
    · simp [thisTruthy, h1]
    · by_cases h2 : name = "add"
      · simp [thisTruthy, h2]
      · rcases hname with h | h | ⟨v, hv, hvt⟩
        · exact absurd h h1
        · exact absurd h h2
        · simp [thisTruthy, h1, h2, hnomod, hv, hvt]
  exact ⟨by simp [add1Idx, htr], by simp [add1P0, htr]⟩

/-- C9 witness: a root with a truthy plain field `t` and an empty registry
refuses `add("t", ...)`. -/
theorem claim_C9_truthy_guard_w :
    add1Idx (fun gid => JSVal.undef) ⟨[("t", JSVal.num 1)], [], [], []⟩ "t"
        (fun rr => []) =
      (⟨[("t", JSVal.num 1)], [], [], []⟩, [dupMsg "t"]) ∧
    add1P0 (fun gid => JSVal.undef) ⟨[("t", JSVal.num 1)], [], [], []⟩ "t"
        (fun rr => []) =
      (⟨[("t", JSVal.num 1)], [], [], []⟩, [dupMsg "t"]) :=
  claim_C9_truthy_guard (fun gid => JSVal.undef) ⟨[("t", JSVal.num 1)], [], [], []⟩ "t"
    (fun rr => []) (fun rr => [])
    (Or.inr (Or.inr ⟨JSVal.num 1, rfl, rfl⟩)) rfl

/-- C7: `add` called with a mapping iterates its entries and invokes the
single-name form once per entry in entry order — the bulk form equals the
left fold of the single-name step over the entries — and there is no
rollback: running the loop on `es ++ es2` is running it on `es` and then on
`es2` from the resulting store, so entries attached before a refused or
otherwise failing later entry remain attached.  Both variants. -/
theorem claim_C7_bulk_add (g : Nat → JSVal) (r : RootStore)
    (es es2 : List (String × Factory)) (n : String) (f : Factory) :
    addCallIdx g r (AddArg.single n f) = add1Idx g r n f ∧
    addCallIdx g r (AddArg.bulk es)
      = es.foldl (fun p e => ((add1Idx g p.1 e.1 e.2).1, p.2 ++ (add1Idx g p.1 e.1 e.2).2))
          (r, []) ∧
    addEntries (addStepIdx g) r (es ++ es2)
      = ((addEntries (addStepIdx g) (addEntries (addStepIdx g) r es).1 es2).1,
         (addEntries (addStepIdx g) r es).2
           ++ (addEntries (addStepIdx g) (addEntries (addStepIdx g) r es).1 es2).2) ∧
    addCallP0 g r (AddArg.single n f) = add1P0 g r n f ∧
    addCallP0 g r (AddArg.bulk es)
      = es.foldl (fun p e => ((add1P0 g p.1 e.1 e.2).1, p.2 ++ (add1P0 g p.1 e.1 e.2).2))
          (r, []) ∧
    addEntries (addStepP0 g) r (es ++ es2)
      = ((addEntries (addStepP0 g) (addEntries (addStepP0 g) r es).1 es2).1,
         (addEntries (addStepP0 g) r es).2
           ++ (addEntries (addStepP0 g) (addEntries (addStepP0 g) r es).1 es2).2) := by
  refine ⟨rfl, ?_, addEntries_append (addStepIdx g) es es2 r, rfl, ?_,
    addEntries_append (addStepP0 g) es es2 r⟩
  · rw [addCallIdx]
    have h := addEntries_foldl (addStepIdx g) es r []
    simp only [addStepIdx] at h ⊢
    rw [h]
    simp
  · rw [addCallP0]
    have h := addEntries_foldl (addStepP0 g) es r []
    simp only [addStepP0] at h ⊢
    rw [h]
    simp

/-- C1: on a root store with one own plain field `x` and one attached module
`m` whose container holds one field `y`, the `state` computed returns the
flat mapping `{ x: <current value>, m: { y: <current value> } }`, where a
field (of the root or of the module) whose current value is a function is
excluded from its level of the result. -/
theorem claim_C1_state_snapshot (x m y : String) (vx vy : JSVal)
    (rc cc : List (String × Nat)) (sa : List (String × JSVal)) (bv : Bool)
    (hxm : x ≠ m) :
    stateAggregate ⟨[(x, vx)], rc, sa, [(m, ⟨bv, [(y, vy)], cc⟩)]⟩
      = (if vx.isFunction then [] else [(x, vx)])
        ++ [(m, JSVal.obj (if vy.isFunction then [] else [(y, vy)]))] := by
  cases hfx : vx.isFunction <;> cases hfy : vy.isFunction <;>
    simp [stateAggregate, filterFunctions, fromPairs, assign, contState, setKey,
      List.filter, hfx, hfy, hxm]

/-- C1 witness. -/
theorem claim_C1_state_snapshot_w :
    stateAggregate ⟨[("x", JSVal.num 1)], [], [],
        [("m", ⟨false, [("y", JSVal.num 2)], []⟩)]⟩
      = [("x", JSVal.num 1), ("m", JSVal.obj [("y", JSVal.num 2)])] := by
  simpa [JSVal.isFunction] using
    claim_C1_state_snapshot "x" "m" "y" (JSVal.num 1) (JSVal.num 2) [] [] [] false
      (by decide)

/-- C10: module entries are merged into the `state` aggregate after the
root's own fields, by `Object.assign`: when a non-function root plain field
shares its name with a registered module, the field does appear in the
function-filtered root snapshot, but the aggregate maps that name to the
module's function-filtered field object, overwriting the root field's
value. -/
theorem claim_C10_module_overwrites_root_field (r : RootStore) (m : String)
    (v : JSVal) (cont : Container)
    (hnd : (r.rootData.map Prod.fst).Nodup)
    (hv : lookupKey r.rootData m = some v)
    (hfn : v.isFunction = false)
    (hm : lookupLast r.modules m = some cont) :
    lookupKey (filterFunctions r.rootData) m = some v ∧
    lookupKey (stateAggregate r) m = some (JSVal.obj (filterFunctions cont.data)) := by
  refine ⟨lookupKey_filterFunctions r.rootData m v hnd hv hfn, ?_⟩
  rw [stateAggregate_lookup, hm]
  simp [orDefault, contState]

/-- C10 witness. -/
theorem claim_C10_module_overwrites_root_field_w :
    lookupKey (filterFunctions [("m", JSVal.num 7)]) "m" = some (JSVal.num 7) ∧
    lookupKey (stateAggregate ⟨[("m", JSVal.num 7)], [], [],
        [("m", ⟨false, [("y", JSVal.num 2)], []⟩)]⟩) "m"
      = some (JSVal.obj (filterFunctions [("y", JSVal.num 2)])) :=
  claim_C10_module_overwrites_root_field
    ⟨[("m", JSVal.num 7)], [], [], [("m", ⟨false, [("y", JSVal.num 2)], []⟩)]⟩
    "m" (JSVal.num 7) ⟨false, [("y", JSVal.num 2)], []⟩
    (by decide) rfl rfl rfl

/-- C6: every own key of the definition other than the reserved `watch` key
is routed by `separate` to exactly one of the two output mappings: an
accessor key goes to the computed mapping carrying its unevaluated getter
and is absent from the data mapping; any other key goes to the data mapping
carrying the truthy override value or else the stored value, and is absent
from the computed mapping.  Holds for both variants. -/
theorem claim_C6_key_routing (g : Nat → JSVal) (obj : List (String × DProp))
    (st : List (String × JSVal)) (k : String) (p : DProp)
    (hnd : (obj.map Prod.fst).Nodup) (hmem : (k, p) ∈ obj) (hk : k ≠ "watch") :
    (∀ gid, p = DProp.getter gid →
      lookupKey (separateIdx g obj st).1 k = some gid ∧
      lookupKey (separateIdx g obj st).2.1 k = none ∧
      lookupKey (separate000 obj st).1 k = some gid ∧
      lookupKey (separate000 obj st).2 k = none) ∧
    (∀ v, p = DProp.dataProp v →
      lookupKey (separateIdx g obj st).1 k = none ∧
      lookupKey (separateIdx g obj st).2.1 k
        = some (if (jsGet st k).truthy then jsGet st k else v) ∧
      lookupKey (separate000 obj st).1 k = none ∧
      lookupKey (separate000 obj st).2 k
        = some (if (jsGet st k).truthy then jsGet st k else v)) := by
  have hroute := sepCore_route st obj k p hnd hmem
  have hmemf : (k, p) ∈ obj.filter (fun kv => ! decide (kv.1 = "watch")) :=
    List.mem_filter.mpr ⟨hmem, by simp [hk]⟩
  have hndf : ((obj.filter (fun kv => ! decide (kv.1 = "watch"))).map Prod.fst).Nodup :=
    List.Nodup.sublist (List.Sublist.map Prod.fst (List.filter_sublist obj)) hnd
  have hroutef := sepCore_route st (obj.filter (fun kv => ! decide (kv.1 = "watch"))) k p
    hndf hmemf
  constructor
  · intro gid hg
    obtain ⟨f1, f2⟩ := hroutef.1 gid hg
    obtain ⟨c1, c2⟩ := hroute.1 gid hg
    exact ⟨by simpa [separateIdx, sepCoreIdx_eq_filter] using f1,
      by simpa [separateIdx, sepCoreIdx_eq_filter] using f2, c1, c2⟩
  · intro v hv
    obtain ⟨f1, f2⟩ := hroutef.2 v hv
    obtain ⟨c1, c2⟩ := hroute.2 v hv
    exact ⟨by simpa [separateIdx, sepCoreIdx_eq_filter] using f1,
      by simpa [separateIdx, sepCoreIdx_eq_filter] using f2, c1, c2⟩

/-- C6 witness: accessor key `b` and data key `a` of a two-key definition. -/
theorem claim_C6_key_routing_w :
    (∀ gid, DProp.getter 7 = DProp.getter gid →
      lookupKey (separateIdx (fun x => JSVal.undef)
          [("a", DProp.dataProp (JSVal.num 1)), ("b", DProp.getter 7)] []).1 "b" = some gid ∧
      lookupKey (separateIdx (fun x => JSVal.undef)
          [("a", DProp.dataProp (JSVal.num 1)), ("b", DProp.getter 7)] []).2.1 "b" = none ∧
      lookupKey (separate000
          [("a", DProp.dataProp (JSVal.num 1)), ("b", DProp.getter 7)] []).1 "b" = some gid ∧
      lookupKey (separate000
          [("a", DProp.dataProp (JSVal.num 1)), ("b", DProp.getter 7)] []).2 "b" = none) ∧
    (∀ v, DProp.getter 7 = DProp.dataProp v →
      lookupKey (separateIdx (fun x => JSVal.undef)
          [("a", DProp.dataProp (JSVal.num 1)), ("b", DProp.getter 7)] []).1 "b" = none ∧
      lookupKey (separateIdx (fun x => JSVal.undef)
          [("a", DProp.dataProp (JSVal.num 1)), ("b", DProp.getter 7)] []).2.1 "b"
        = some (if (jsGet [] "b").truthy then jsGet [] "b" else v) ∧
      lookupKey (separate000
          [("a", DProp.dataProp (JSVal.num 1)), ("b", DProp.getter 7)] []).1 "b" = none ∧
      lookupKey (separate000
          [("a", DProp.dataProp (JSVal.num 1)), ("b", DProp.getter 7)] []).2 "b"
        = some (if (jsGet [] "b").truthy then jsGet [] "b" else v)) :=
  claim_C6_key_routing (fun x => JSVal.undef)
    [("a", DProp.dataProp (JSVal.num 1)), ("b", DProp.getter 7)] [] "b" (DProp.getter 7)
    (by decide) (by simp) (by decide)

/-- C5 counterexample: in src/unnamed/part_000, a module definition whose
partition yields an empty derived-field mapping but whose data holds a
truthy `created` field is built through the full reactive-instance path
(`new Vue`), not the simple observable path: after attaching it, the
registered container records the full path (`isVue = true`) while its
computed mapping is empty. -/
theorem claim_C5_cx :
    ((add1P0 (fun gid => JSVal.undef) (mkRootP0 [] []) "m"
        (fun rr => [("created", DProp.dataProp (JSVal.fn 0))])).1.modules.map
      (fun nc => (nc.1, nc.2.isVue, nc.2.computed)))
      = [("m", true, [])] := rfl

/-- C5 amended: in src/index.js, attach builds the module container through
the simple observable path iff the derived-field mapping is empty; in
src/unnamed/part_000 it does so iff the derived-field mapping is empty and
the data mapping has no truthy `created` field.  In either variant the
container carries exactly the partitioned data and computed mappings, and
after the attach the root's `state` aggregate maps the module's name to its
function-filtered plain-field object. -/
theorem claim_C5_container_paths (g : Nat → JSVal) (r : RootStore) (name : String)
    (f : Factory) (hfree : thisTruthy g r name = false) :
    (add1Idx g r name f).1.modules
      = r.modules ++ [(name,
          ⟨!(separateIdx g (f r) (asStateObj (jsGet r.stateArg name))).1.isEmpty,
           (separateIdx g (f r) (asStateObj (jsGet r.stateArg name))).2.1,
           (separateIdx g (f r) (asStateObj (jsGet r.stateArg name))).1⟩)] ∧
    lookupKey (stateAggregate (add1Idx g r name f).1) name
      = some (JSVal.obj (filterFunctions
          (separateIdx g (f r) (asStateObj (jsGet r.stateArg name))).2.1)) ∧
    (add1P0 g r name f).1.modules
      = r.modules ++ [(name,
          ⟨!(separate000 (f r) (asStateObj (jsGet r.stateArg name))).1.isEmpty
             || (jsGet (separate000 (f r) (asStateObj (jsGet r.stateArg name))).2
                  "created").truthy,
           (separate000 (f r) (asStateObj (jsGet r.stateArg name))).2,
           (separate000 (f r) (asStateObj (jsGet r.stateArg name))).1⟩)] ∧
    lookupKey (stateAggregate (add1P0 g r name f).1) name
      = some (JSVal.obj (filterFunctions
          (separate000 (f r) (asStateObj (jsGet r.stateArg name))).2)) := by
  have h1 : (add1Idx g r name f).1.modules
      = r.modules ++ [(name,
          ⟨!(separateIdx g (f r) (asStateObj (jsGet r.stateArg name))).1.isEmpty,
           (separateIdx g (f r) (asStateObj (jsGet r.stateArg name))).2.1,
           (separateIdx g (f r) (asStateObj (jsGet r.stateArg name))).1⟩)] := by
    cases hb : (separateIdx g (f r) (asStateObj (jsGet r.stateArg name))).1.isEmpty <;>
      simp [add1Idx, hfree, hb]
  have h3 : (add1P0 g r name f).1.modules
      = r.modules ++ [(name,
          ⟨!(separate000 (f r) (asStateObj (jsGet r.stateArg name))).1.isEmpty
             || (jsGet (separate000 (f r) (asStateObj (jsGet r.stateArg name))).2
                  "created").truthy,
           (separate000 (f r) (asStateObj (jsGet r.stateArg name))).2,
           (separate000 (f r) (asStateObj (jsGet r.stateArg name))).1⟩)] := by
    cases hb : (!(separate000 (f r) (asStateObj (jsGet r.stateArg name))).1.isEmpty
        || (jsGet (separate000 (f r) (asStateObj (jsGet r.stateArg name))).2
             "created").truthy) <;>
      simp [add1P0, hfree, hb]
  have h2 : lookupKey (stateAggregate (add1Idx g r name f).1) name
      = some (JSVal.obj (filterFunctions
          (separateIdx g (f r) (asStateObj (jsGet r.stateArg name))).2.1)) := by
    rw [stateAggregate_lookup, h1, lookupLast_append_self]
    simp [orDefault, contState]
  have h4 : lookupKey (stateAggregate (add1P0 g r name f).1) name
      = some (JSVal.obj (filterFunctions
          (separate000 (f r) (asStateObj (jsGet r.stateArg name))).2)) := by
    rw [stateAggregate_lookup, h3, lookupLast_append_self]
    simp [orDefault, contState]
  exact ⟨h1, h2, h3, h4⟩

/-- C5 amended, witness: an empty module definition on an empty root goes
through the simple observable path in both variants and appears in the
aggregate as an empty object. -/
theorem claim_C5_container_paths_w :
    (add1Idx (fun gid => JSVal.undef) ⟨[], [], [], []⟩ "m" (fun rr => [])).1.modules
      = [("m", ⟨false, [], []⟩)] ∧
    lookupKey (stateAggregate
        (add1Idx (fun gid => JSVal.undef) ⟨[], [], [], []⟩ "m" (fun rr => [])).1) "m"
      = some (JSVal.obj []) ∧
    (add1P0 (fun gid => JSVal.undef) ⟨[], [], [], []⟩ "m" (fun rr => [])).1.modules
      = [("m", ⟨false, [], []⟩)] ∧
    lookupKey (stateAggregate
        (add1P0 (fun gid => JSVal.undef) ⟨[], [], [], []⟩ "m" (fun rr => [])).1) "m"
      = some (JSVal.obj []) := by
  have h := claim_C5_container_paths (fun gid => JSVal.undef) ⟨[], [], [], []⟩ "m"
    (fun rr => []) rfl
  simpa [separateIdx, separate000, sepCoreIdx, sepCore, jsPropRead, jsGet, lookupKey,
    asStateObj, filterFunctions, fromPairs, assign] using h
